import Mathlib

/-!
Verification of the markdown preview renderer of `sticky_notes.py`
(class `TableParser` and the methods `StickyNote.update_preview` /
`StickyNote.parse_inline_formatting`).

Strings are modelled as `List Char` (`Str`).  The Unicode
category/east-asian-width classification used by
`TableParser.estimate_display_width` is modelled as a pluggable function
`w : Char → Nat` giving each character its display width in half-column
units (the Python code adds 2, 1.5, or 1 columns per character; in
half-units these are 4, 3, and 2, and the final `int(width)` truncation
is division by 2).  All renderer functions are parameterised by `w`;
concrete instantiations used in witnesses agree with the real Unicode
tables on every character they are applied to.
-/

abbrev Str := List Char

/-- Output run styles: `preview_buffer` tags of `StickyNote`. -/
inductive Style
  | plain
  | bold
  | italic
  | header
  | mono
  deriving DecidableEq, Repr

abbrev StyledRun := Str × Style

/-- Column alignments produced by `TableParser.get_column_alignments`. -/
inductive Align
  | left
  | center
  | right
  deriving DecidableEq, Repr

/-- ASCII whitespace recognised by Python's `str.strip` (models `str.strip()`). -/
def pyIsSpace (c : Char) : Bool :=
  c = ' ' || c = '\t' || c = '\n' || c = '\r' || c = '\x0b' || c = '\x0c'

/-- Python `s.strip()`. -/
def pyStrip (s : Str) : Str :=
  ((s.dropWhile pyIsSpace).reverse.dropWhile pyIsSpace).reverse

/-- Python `s.split(c)`. -/
def pySplit (c : Char) : Str → List Str
  | [] => [[]]
  | a :: rest =>
    match pySplit c rest with
    | [] => [[]]
    | h :: t => if a = c then [] :: h :: t else (a :: h) :: t

/-- Python `sep.join(parts)`. -/
def joinSep (sep : Str) : List Str → Str
  | [] => []
  | [x] => x
  | x :: y :: r => x ++ sep ++ joinSep sep (y :: r)

/-- Python `zip` over three sequences (truncates to the shortest). -/
def zipWith3 (f : α → β → γ → δ) : List α → List β → List γ → List δ
  | a :: as, b :: bs, c :: cs => f a b c :: zipWith3 f as bs cs
  | _, _, _ => []

/-- The `while len(l) < n: l.append(x)` padding loops of `format_table`. -/
def padRightTo (l : List α) (n : Nat) (x : α) : List α :=
  l ++ List.replicate (n - l.length) x

/-- `TableParser.is_table_line`. -/
def is_table_line (line : Str) : Bool :=
  let s := pyStrip line
  decide (s.head? = some '|') && decide (s.getLast? = some '|') &&
    decide (2 ≤ s.count '|')

/-- Strip one optional leading colon (the `:?` prefix of the regex
`^:?-+:?$` used by `TableParser.is_separator_line`). -/
def stripLeadColon (s : Str) : Str :=
  if s.head? = some ':' then s.tail else s

/-- Strip one optional trailing colon (the `:?` suffix of the regex). -/
def stripTrailColon (s : Str) : Str :=
  if s.getLast? = some ':' then s.dropLast else s

/-- Decision procedure for the regex `^:?-+:?$` used by
`TableParser.is_separator_line`: after removing one optional leading and
one optional trailing colon there must remain a nonempty run of dashes. -/
def matchSep (s : Str) : Bool :=
  decide (stripTrailColon (stripLeadColon s) ≠ []) &&
    (stripTrailColon (stripLeadColon s)).all (fun c => c = '-')

/-- `TableParser.is_separator_line`. -/
def is_separator_line (line : Str) : Bool :=
  if !is_table_line line then false
  else
    (pySplit '|' (((pyStrip line).drop 1).dropLast)).all
      (fun cell =>
        let c := pyStrip cell
        decide (c = []) || matchSep c)

/-- `TableParser.parse_table_cells`. -/
def parse_table_cells (line : Str) : List Str :=
  let s := pyStrip line
  if !(decide (s.head? = some '|') && decide (s.getLast? = some '|')) then []
  else (pySplit '|' ((s.drop 1).dropLast)).map pyStrip

/-- Per-cell alignment derivation: the loop body of
`TableParser.get_column_alignments`. -/
def cell_alignment (cell : Str) : Align :=
  let c := pyStrip cell
  if c.head? = some ':' ∧ c.getLast? = some ':' then Align.center
  else if c.getLast? = some ':' then Align.right
  else Align.left

/-- `TableParser.get_column_alignments`. -/
def get_column_alignments (line : Str) : List Align :=
  (parse_table_cells line).map cell_alignment

/-- Python `re.sub(r'\*\*([^*]+)\*\*', r'\1', text)`: left-to-right,
non-overlapping replacement of `**run**` (run nonempty, star-free) by the
run; on failure at a position the scan advances one character.
Structurally recursive on a fuel parameter so that the kernel can
evaluate it; every call site supplies `fuel ≥ length of the string`,
which always suffices because each step consumes at least one
character. -/
def sub_double_go : Nat → Str → Str
  | _, [] => []
  | 0, s => s
  | fuel + 1, c :: cs =>
    if c = '*' ∧ cs.head? = some '*' then
      if (cs.tail.takeWhile (fun x => x ≠ '*')) ≠ [] ∧
          ((cs.tail.drop (cs.tail.takeWhile (fun x => x ≠ '*')).length).take 2 = ['*', '*']) then
        (cs.tail.takeWhile (fun x => x ≠ '*')) ++
          sub_double_go fuel ((cs.tail.drop (cs.tail.takeWhile (fun x => x ≠ '*')).length).drop 2)
      else c :: sub_double_go fuel cs
    else c :: sub_double_go fuel cs

/-- First substitution pass of `estimate_display_width`. -/
def sub_double (s : Str) : Str := sub_double_go s.length s

/-- Python `re.sub(r'\*([^*]+)\*', r'\1', text)` (fuel-structured like
`sub_double_go`). -/
def sub_single_go : Nat → Str → Str
  | _, [] => []
  | 0, s => s
  | fuel + 1, c :: cs =>
    if c = '*' then
      if (cs.takeWhile (fun x => x ≠ '*')) ≠ [] ∧
          ((cs.drop (cs.takeWhile (fun x => x ≠ '*')).length).take 1 = ['*']) then
        (cs.takeWhile (fun x => x ≠ '*')) ++
          sub_single_go fuel ((cs.drop (cs.takeWhile (fun x => x ≠ '*')).length).drop 1)
      else c :: sub_single_go fuel cs
    else c :: sub_single_go fuel cs

/-- Second substitution pass of `estimate_display_width`. -/
def sub_single (s : Str) : Str := sub_single_go s.length s

/-- The markdown-stripping pass at the top of
`TableParser.estimate_display_width` (first `**…**`, then `*…*`). -/
def clean_stars (t : Str) : Str :=
  sub_single (sub_double t)

/-- `TableParser.estimate_display_width`, parameterised by the
half-column width `w` of each character (real value: 4 for category So,
3 for Sm and Sc, 4 for east-asian F/W, 2 otherwise). -/
def estimate_display_width (w : Char → Nat) (text : Str) : Nat :=
  if text = [] then 0
  else ((clean_stars text).map w).sum / 2

/-- `TableParser.pad_text`. -/
def pad_text (w : Char → Nat) (text : Str) (width : Nat) (align : Align) : Str :=
  let current := estimate_display_width w text
  let padding := width - current
  match align with
  | Align.center =>
      List.replicate (padding / 2) ' ' ++ text ++
        List.replicate (padding - padding / 2) ' '
  | Align.right => List.replicate padding ' ' ++ text
  | Align.left => text ++ List.replicate padding ' '

/-- Data rows of `format_table`: lines from `data_start` on that are
table lines, parsed into cells. -/
def table_data_rows (lines : List Str) : List (List Str) :=
  let data_start := if is_separator_line (lines.getD 1 []) then 2 else 1
  ((lines.drop data_start).filter is_table_line).map parse_table_cells

/-- `max_cols` of `format_table`. -/
def table_max_cols (lines : List Str) : Nat :=
  (table_data_rows lines).foldl (fun m r => max m r.length)
    (parse_table_cells (lines.headD [])).length

/-- Header cells of `format_table`, padded to `max_cols`. -/
def table_header (lines : List Str) : List Str :=
  padRightTo (parse_table_cells (lines.headD [])) (table_max_cols lines) []

/-- Alignments of `format_table`, padded to `max_cols` with `left`. -/
def table_aligns (lines : List Str) : List Align :=
  let a0 :=
    if is_separator_line (lines.getD 1 []) then
      get_column_alignments (lines.getD 1 [])
    else
      List.replicate (parse_table_cells (lines.headD [])).length Align.left
  padRightTo a0 (table_max_cols lines) Align.left

/-- Data rows of `format_table`, padded to `max_cols`. -/
def table_rows (lines : List Str) : List (List Str) :=
  (table_data_rows lines).map (fun r => padRightTo r (table_max_cols lines) [])

/-- Column widths of `format_table`:
`max(3, max over rows of estimate_display_width(cell))` per column. -/
def table_col_widths (w : Char → Nat) (lines : List Str) : List Nat :=
  let all_rows := table_header lines :: table_rows lines
  (List.range (table_max_cols lines)).map (fun i =>
    max
      (all_rows.foldl
        (fun m r =>
          if i < r.length then max m (estimate_display_width w (r.getD i []))
          else m)
        0)
      3)

/-- A border line of `format_table` (`┌┬┐`, `├┼┤` or `└┴┘` shapes). -/
def border_row (lch mch rch : Char) (widths : List Nat) : Str :=
  lch :: (joinSep [mch] (widths.map (fun wi => List.replicate (wi + 2) '─')) ++ [rch])

/-- A cell row of `format_table`: `'│' + '│'.join(parts) + '│'`. -/
def row_of_parts (parts : List Str) : Str :=
  '│' :: (joinSep ['│'] parts ++ ['│'])

/-- Header-row cell parts of `format_table`
(`zip(header_cells, col_widths, alignments)`). -/
def header_parts (w : Char → Nat) (lines : List Str) : List Str :=
  zipWith3 (fun c wi a => ' ' :: (pad_text w c wi a ++ [' ']))
    (table_header lines) (table_col_widths w lines) (table_aligns lines)

/-- Data-row cell parts of `format_table` (`enumerate(col_widths)` with
out-of-range cells defaulting to `""` and alignments to `left`). -/
def data_parts (w : Char → Nat) (widths : List Nat) (aligns : List Align)
    (row : List Str) : List Str :=
  (List.range widths.length).map (fun i =>
    ' ' :: (pad_text w (row.getD i []) (widths.getD i 0) (aligns.getD i Align.left) ++ [' ']))

/-- The `result` list of `TableParser.format_table`: the rendered output,
one entry per output line. -/
def format_table_lines (w : Char → Nat) (lines : List Str) : List Str :=
  if lines = [] then []
  else if lines.length < 2 then []
  else
    let widths := table_col_widths w lines
    let aligns := table_aligns lines
    [border_row '┌' '┬' '┐' widths,
     row_of_parts (header_parts w lines),
     border_row '├' '┼' '┤' widths]
    ++ (table_rows lines).map (fun r => row_of_parts (data_parts w widths aligns r))
    ++ [border_row '└' '┴' '┘' widths]

/-- `TableParser.format_table`: the joined output string. -/
def format_table (w : Char → Nat) (lines : List Str) : Str :=
  joinSep ['\n'] (format_table_lines w lines)

/-- Python `"**" in line` (two adjacent stars somewhere in the line). -/
def hasDoubleStar : Str → Bool
  | [] => false
  | [_] => false
  | a :: b :: r => (decide (a = '*') && decide (b = '*')) || hasDoubleStar (b :: r)

/-- Index of the first occurrence of `"**"` (Python `line.find("**", p)`
relative to the suffix starting at `p`). -/
def findDoubleStar : Str → Option Nat
  | [] => none
  | [_] => none
  | a :: b :: r =>
    if a = '*' ∧ b = '*' then some 0
    else (findDoubleStar (b :: r)).map (fun i => i + 1)

/-- Index of the first `'*'` (Python `line.find("*", p)` relative to the
suffix starting at `p`). -/
def findStar : Str → Option Nat
  | [] => none
  | a :: r => if a = '*' then some 0 else (findStar r).map (fun i => i + 1)

/-- The scanning loop of `StickyNote.parse_inline_formatting`, acting on
the suffix of the line starting at the cursor `pos`.  Each run in the
result is one buffer insertion (single plain characters are inserted one
at a time).  Fuel-structured like `sub_double_go`. -/
def inline_go : Nat → Str → List StyledRun
  | _, [] => []
  | 0, _ => []
  | fuel + 1, c :: cs =>
    if c = '*' ∧ cs.head? = some '*' then
      match findDoubleStar cs.tail with
      | some k =>
        (cs.tail.take k, Style.bold) :: inline_go fuel (cs.tail.drop (k + 2))
      | none => ([c], Style.plain) :: inline_go fuel cs
    else if c = '*' then
      match findStar cs with
      | some k => (cs.take k, Style.italic) :: inline_go fuel (cs.drop (k + 1))
      | none => ([c], Style.plain) :: inline_go fuel cs
    else ([c], Style.plain) :: inline_go fuel cs

/-- The scanning loop of `StickyNote.parse_inline_formatting`. -/
def inline_loop (line : Str) : List StyledRun := inline_go line.length line

/-- `StickyNote.parse_inline_formatting`: scan the line, then insert a
final newline as a plain run. -/
def parse_inline_formatting (line : Str) : List StyledRun :=
  inline_loop line ++ [(['\n'], Style.plain)]

/-- The line-dispatch loop of `StickyNote.update_preview` (from the
`while i < len(preview_lines)` loop): table-run collection, headers,
inline emphasis, plain fallback.  Fuel-structured like `sub_double_go`
(each iteration consumes at least one line). -/
def render_go (w : Char → Nat) : Nat → List Str → List StyledRun
  | _, [] => []
  | 0, _ => []
  | fuel + 1, line :: rest =>
    if is_table_line line then
      (if 2 ≤ (rest.takeWhile is_table_line).length + 1 then
        (if format_table w (line :: rest.takeWhile is_table_line) ≠ [] then
          [(format_table w (line :: rest.takeWhile is_table_line) ++ ['\n', '\n'],
            Style.mono)]
         else [])
       else [])
      ++ render_go w fuel (rest.drop (rest.takeWhile is_table_line).length)
    else if line.take 2 = ['#', ' '] then
      (line.drop 2 ++ ['\n'], Style.header) :: render_go w fuel rest
    else if line.take 3 = ['#', '#', ' '] then
      (line.drop 3 ++ ['\n'], Style.header) :: render_go w fuel rest
    else if hasDoubleStar line || decide ('*' ∈ line) then
      parse_inline_formatting line ++ render_go w fuel rest
    else
      (line ++ ['\n'], Style.plain) :: render_go w fuel rest

/-- The line-dispatch loop of `StickyNote.update_preview`. -/
def renderLines (w : Char → Nat) (lines : List Str) : List StyledRun :=
  render_go w lines.length lines

/-- The body extraction of `StickyNote.update_preview`:
`lines = text.split('\n'); preview_lines = lines[2:] if len(lines) > 2 else []`. -/
def preview_lines (text : Str) : List Str :=
  let lines := pySplit '\n' text
  if 2 < lines.length then lines.drop 2 else []

/-- `StickyNote.update_preview`: the preview buffer is cleared
(`set_text("")`) and rebuilt from the body lines; `prev` is the buffer
content before the call and is discarded by the clear. -/
def update_preview (w : Char → Nat) (_prev : List StyledRun) (text : Str) :
    List StyledRun :=
  let cleared : List StyledRun := []
  cleared ++ renderLines w (preview_lines text)

/-- Width classifier giving every character one column (half-width 2):
agrees with the real Unicode classification on ASCII letters, digits,
spaces, `#`, `-`, `:`, `_`, backtick and `*` (none of which are in
categories So/Sm/Sc or east-asian wide). -/
def unitWidth : Char → Nat := fun _ => 2

/-- Width classifier for inputs whose only non-unit-width character is
the emoji `😀` (Unicode category So, hence two columns = half-width 4). -/
def emojiWidth : Char → Nat := fun c => if c = '😀' then 4 else 2

/-! ### Basic lemmas about the string helpers -/

theorem pySplit_ne_nil (c : Char) (s : Str) : pySplit c s ≠ [] := by
  cases s with
  | nil => simp [pySplit]
  | cons a rest =>
    simp only [pySplit]
    cases pySplit c rest with
    | nil => simp
    | cons h t =>
      by_cases hac : a = c
      · simp [hac]
      · simp [hac]

theorem pyStrip_cons_of_not_space (c : Char) (l : Str) (hc : pyIsSpace c = false) :
    ∃ l', pyStrip (c :: l) = c :: l' := by
  unfold pyStrip
  rw [List.dropWhile_cons]
  simp only [hc, if_false, Bool.false_eq_true, List.reverse_cons]
  rw [List.dropWhile_append]
  by_cases hd : (List.dropWhile pyIsSpace l.reverse).isEmpty
  · simp only [hd, if_true]
    rw [List.dropWhile_cons]
    simp [hc]
  · simp only [hd, if_false, Bool.false_eq_true]
    exact ⟨(List.dropWhile pyIsSpace l.reverse).reverse, by simp⟩

theorem is_table_line_false_of_head (c : Char) (l : Str)
    (hc : pyIsSpace c = false) (hne : c ≠ '|') :
    is_table_line (c :: l) = false := by
  obtain ⟨l', hl⟩ := pyStrip_cons_of_not_space c l hc
  simp [is_table_line, hl, hne]

theorem pyStrip_eq_self_of_no_space (l : Str) (h : ∀ c ∈ l, pyIsSpace c = false) :
    pyStrip l = l := by
  have h1 : l.dropWhile pyIsSpace = l := by
    cases l with
    | nil => rfl
    | cons a t => rw [List.dropWhile_cons]; simp [h a (List.mem_cons_self a t)]
  have h2 : l.reverse.dropWhile pyIsSpace = l.reverse := by
    cases hr : l.reverse with
    | nil => rfl
    | cons a t =>
      rw [List.dropWhile_cons]
      have ha : a ∈ l := by
        have : a ∈ l.reverse := by rw [hr]; exact List.mem_cons_self a t
        simpa using this
      simp [h a ha]
  unfold pyStrip
  rw [h1, h2, List.reverse_reverse]

/-! ### Lemmas about star-stripping and the width estimate -/

theorem sub_double_go_of_no_star (fuel : Nat) :
    ∀ s : Str, '*' ∉ s → sub_double_go fuel s = s := by
  induction fuel with
  | zero => intro s _; cases s <;> rfl
  | succ f ih =>
    intro s h
    cases s with
    | nil => rfl
    | cons c cs =>
      have hc : c ≠ '*' := by rintro rfl; exact h (List.mem_cons_self _ _)
      have hcs : '*' ∉ cs := fun m => h (List.mem_cons_of_mem c m)
      simp only [sub_double_go]
      rw [if_neg (by intro hx; exact hc hx.1)]
      rw [ih cs hcs]

theorem sub_single_go_of_no_star (fuel : Nat) :
    ∀ s : Str, '*' ∉ s → sub_single_go fuel s = s := by
  induction fuel with
  | zero => intro s _; cases s <;> rfl
  | succ f ih =>
    intro s h
    cases s with
    | nil => rfl
    | cons c cs =>
      have hc : c ≠ '*' := by rintro rfl; exact h (List.mem_cons_self _ _)
      have hcs : '*' ∉ cs := fun m => h (List.mem_cons_of_mem c m)
      simp only [sub_single_go]
      rw [if_neg hc]
      rw [ih cs hcs]

theorem clean_stars_of_no_star (s : Str) (h : '*' ∉ s) : clean_stars s = s := by
  unfold clean_stars sub_double sub_single
  rw [sub_double_go_of_no_star _ s h, sub_single_go_of_no_star _ s h]

theorem estimate_eq_sum_div_two (w : Char → Nat) (s : Str) :
    estimate_display_width w s = ((clean_stars s).map w).sum / 2 := by
  unfold estimate_display_width
  by_cases h : s = []
  · subst h
    simp [clean_stars, sub_double, sub_single, sub_double_go, sub_single_go]
  · rw [if_neg h]

/-- C2 (amended): on star-free strings the width estimate is monotone
under concatenation on both sides (and trivially non-negative); the
markdown-stripping step makes this fail for strings containing `*`. -/
theorem estimate_width_monotone_of_no_star (w : Char → Nat) (a b : Str)
    (ha : '*' ∉ a) (hb : '*' ∉ b) :
    estimate_display_width w a ≤ estimate_display_width w (a ++ b) ∧
      estimate_display_width w b ≤ estimate_display_width w (a ++ b) := by
  have hab : '*' ∉ a ++ b := by
    intro m
    rcases List.mem_append.mp m with m | m
    · exact ha m
    · exact hb m
  rw [estimate_eq_sum_div_two w a, estimate_eq_sum_div_two w b,
    estimate_eq_sum_div_two w (a ++ b),
    clean_stars_of_no_star a ha, clean_stars_of_no_star b hb,
    clean_stars_of_no_star (a ++ b) hab, List.map_append, List.sum_append]
  constructor
  · exact Nat.div_le_div_right (Nat.le_add_right _ _)
  · exact Nat.div_le_div_right (Nat.le_add_left _ _)

def cexDoubleStar : Str := "**".toList

def cexTailStar : Str := "x**".toList

/-- C2 counterexample: the claimed monotonicity of
`estimate_display_width` under concatenation is false: with `a = "**"`
and `b = "x**"` (all characters of unit display width, as in the real
Unicode tables) the estimate of `a ++ b = "**x**"` is 1, but the
estimate of `a` alone is 2 and of `b` alone is 3, because the
markdown-stripping regex removes the stars from `"**x**"` only. -/
theorem estimate_width_not_monotone :
    ¬ ∀ (w : Char → Nat) (a b : Str),
        estimate_display_width w a ≤ estimate_display_width w (a ++ b) ∧
          estimate_display_width w b ≤ estimate_display_width w (a ++ b) := by
  intro h
  have hc := h unitWidth cexDoubleStar cexTailStar
  revert hc
  decide

/-- C2 (amended) witness at concrete star-free strings. -/
theorem estimate_width_monotone_witness :
    estimate_display_width unitWidth ['a'] ≤
        estimate_display_width unitWidth (['a'] ++ ['b', 'c']) ∧
      estimate_display_width unitWidth ['b', 'c'] ≤
        estimate_display_width unitWidth (['a'] ++ ['b', 'c']) :=
  estimate_width_monotone_of_no_star unitWidth ['a'] ['b', 'c']
    (by decide) (by decide)

/-! ### C9: determinism of the renderer -/

/-- C9: rendering is deterministic: `update_preview` first clears the
preview buffer (`set_text("")`), so the output styled-run sequence is a
function of the input text alone — two invocations on identical text
from any two prior buffer states produce identical run sequences. -/
theorem update_preview_deterministic (w : Char → Nat)
    (prev1 prev2 : List StyledRun) (text : Str) :
    update_preview w prev1 text = update_preview w prev2 text := rfl

/-! ### C1: a lone table line is dropped, not rendered as text -/

/-- C1 (amended): a maximal run consisting of exactly one table line
produces no table and nothing else: `update_preview` skips the line
entirely (`i = j; continue` without any insertion), so its text does not
appear in the output at all. -/
theorem single_table_line_skipped (w : Char → Nat) (l : Str) (rest : List Str)
    (h : is_table_line l = true)
    (h2 : ∀ l2, rest.head? = some l2 → is_table_line l2 = false) :
    renderLines w (l :: rest) = renderLines w rest := by
  have htw : rest.takeWhile is_table_line = [] := by
    cases rest with
    | nil => rfl
    | cons x xs =>
      rw [List.takeWhile_cons, if_neg]
      rw [h2 x rfl]
      simp
  simp only [renderLines, List.length_cons, render_go]
  rw [if_pos h, htw]
  simp

def bodySingleTable : Str := "t\n\n|a|b|".toList

/-- C1 counterexample: for the document body whose single preview line is
`"|a|b|"` (a table line forming a one-line maximal run), the rendered
output is empty — the line is not rendered as plain text, contradicting
the claimed paragraph fallback. -/
theorem single_table_line_not_rendered_cex :
    update_preview unitWidth [] bodySingleTable = [] := by decide

/-- C1 (amended) witness: skipping at a concrete one-line table run. -/
theorem single_table_line_skipped_witness :
    renderLines unitWidth ["|a|b|".toList] = renderLines unitWidth [] :=
  single_table_line_skipped unitWidth _ []
    (by decide) (fun _ h => nomatch h)

/-! ### Lemmas for the inline parser and line dispatch -/

theorem take_two_shape {l : Str} {a b : Char} (h : l.take 2 = [a, b]) :
    ∃ t, l = a :: b :: t := by
  cases l with
  | nil => simp at h
  | cons c cs =>
    cases cs with
    | nil => simp [List.take] at h
    | cons d ds =>
      simp [List.take] at h
      exact ⟨ds, by rw [h.1, h.2]⟩

theorem take_three_shape {l : Str} {a b c : Char} (h : l.take 3 = [a, b, c]) :
    ∃ t, l = a :: b :: c :: t := by
  cases l with
  | nil => simp at h
  | cons x xs =>
    cases xs with
    | nil => simp [List.take] at h
    | cons y ys =>
      cases ys with
      | nil => simp [List.take] at h
      | cons z zs =>
        simp [List.take] at h
        exact ⟨zs, by rw [h.1, h.2.1, h.2.2]⟩

theorem take_four_shape {l : Str} {a b c d : Char} (h : l.take 4 = [a, b, c, d]) :
    ∃ t, l = a :: b :: c :: d :: t := by
  cases l with
  | nil => simp at h
  | cons x xs =>
    simp only [List.take_succ_cons, List.cons.injEq] at h
    obtain ⟨t, ht⟩ := take_three_shape h.2
    exact ⟨t, by rw [h.1, ht]⟩

theorem hasDoubleStar_of_no_star (l : Str) (h : '*' ∉ l) :
    hasDoubleStar l = false := by
  induction l with
  | nil => rfl
  | cons a t ih =>
    have ha : a ≠ '*' := by rintro rfl; exact h (List.mem_cons_self _ _)
    have ht : '*' ∉ t := fun m => h (List.mem_cons_of_mem a m)
    cases t with
    | nil => rfl
    | cons b u =>
      simp only [hasDoubleStar]
      rw [ih ht]
      simp [ha]

theorem findDoubleStar_append_of_no_star (x : Str) (h : '*' ∉ x) :
    findDoubleStar (x ++ ['*', '*']) = some x.length := by
  induction x with
  | nil => rfl
  | cons c t ih =>
    have hc : c ≠ '*' := by rintro rfl; exact h (List.mem_cons_self _ _)
    have ht : '*' ∉ t := fun m => h (List.mem_cons_of_mem c m)
    cases t with
    | nil =>
      show findDoubleStar [c, '*', '*'] = some 1
      simp only [findDoubleStar]
      rw [if_neg (by intro hx; exact hc hx.1)]
      rfl
    | cons d u =>
      have step : findDoubleStar ((c :: d :: u) ++ ['*', '*'])
          = if c = '*' ∧ d = '*' then some 0
            else (findDoubleStar ((d :: u) ++ ['*', '*'])).map (fun i => i + 1) :=
        rfl
      rw [step, if_neg (by intro hx; exact hc hx.1), ih ht]
      simp

theorem findStar_append_of_no_star (x : Str) (h : '*' ∉ x) :
    findStar (x ++ ['*']) = some x.length := by
  induction x with
  | nil => rfl
  | cons c t ih =>
    have hc : c ≠ '*' := by rintro rfl; exact h (List.mem_cons_self _ _)
    have ht : '*' ∉ t := fun m => h (List.mem_cons_of_mem c m)
    have step : findStar ((c :: t) ++ ['*'])
        = if c = '*' then some 0
          else (findStar (t ++ ['*'])).map (fun i => i + 1) := rfl
    rw [step, if_neg hc, ih ht]
    simp

theorem inline_go_succ (fuel : Nat) (c : Char) (cs : Str) :
    inline_go (fuel + 1) (c :: cs) =
      if c = '*' ∧ cs.head? = some '*' then
        match findDoubleStar cs.tail with
        | some k =>
          (cs.tail.take k, Style.bold) :: inline_go fuel (cs.tail.drop (k + 2))
        | none => ([c], Style.plain) :: inline_go fuel cs
      else if c = '*' then
        match findStar cs with
        | some k => (cs.take k, Style.italic) :: inline_go fuel (cs.drop (k + 1))
        | none => ([c], Style.plain) :: inline_go fuel cs
      else ([c], Style.plain) :: inline_go fuel cs := rfl

theorem inline_loop_bold (x : Str) (hx : '*' ∉ x) :
    inline_loop ('*' :: '*' :: (x ++ ['*', '*'])) = [(x, Style.bold)] := by
  have htake : (x ++ ['*', '*']).take x.length = x := List.take_left x ['*', '*']
  have hdrop : (x ++ ['*', '*']).drop (x.length + 2) = [] := by
    rw [← List.drop_drop, List.drop_left]; rfl
  unfold inline_loop
  simp only [List.length_cons]
  rw [inline_go_succ]
  rw [if_pos ⟨rfl, rfl⟩]
  simp only [List.tail_cons]
  rw [findDoubleStar_append_of_no_star x hx]
  show (List.take (List.length x) (x ++ ['*', '*']), Style.bold) ::
      inline_go (List.length (x ++ ['*', '*']) + 1)
        (List.drop (List.length x + 2) (x ++ ['*', '*'])) = [(x, Style.bold)]
  rw [htake, hdrop]
  simp [inline_go]

theorem inline_loop_italic (x : Str) (hx : '*' ∉ x) (hne : x ≠ []) :
    inline_loop ('*' :: (x ++ ['*'])) = [(x, Style.italic)] := by
  obtain ⟨a, x', rfl⟩ : ∃ a x', x = a :: x' := by
    cases x with
    | nil => exact absurd rfl hne
    | cons a x' => exact ⟨a, x', rfl⟩
  have ha : a ≠ '*' := by rintro rfl; exact hx (List.mem_cons_self _ _)
  have htake : ((a :: x') ++ ['*']).take (a :: x').length = a :: x' :=
    List.take_left (a :: x') ['*']
  have hdrop : ((a :: x') ++ ['*']).drop ((a :: x').length + 1) = [] := by
    rw [← List.drop_drop, List.drop_left]; rfl
  unfold inline_loop
  simp only [List.length_cons]
  rw [inline_go_succ]
  rw [if_neg (by
    intro hp
    rw [List.cons_append] at hp
    exact ha (Option.some.inj hp.2))]
  rw [if_pos rfl]
  rw [findStar_append_of_no_star (a :: x') hx]
  show (List.take (a :: x').length (a :: x' ++ ['*']), Style.italic) ::
      inline_go (List.length (a :: x' ++ ['*']))
        (List.drop ((a :: x').length + 1) (a :: x' ++ ['*'])) =
      [(a :: x', Style.italic)]
  rw [htake, hdrop]
  simp [inline_go]

theorem render_go_succ (w : Char → Nat) (fuel : Nat) (line : Str) (rest : List Str) :
    render_go w (fuel + 1) (line :: rest) =
      (if is_table_line line then
        (if 2 ≤ (rest.takeWhile is_table_line).length + 1 then
          (if format_table w (line :: rest.takeWhile is_table_line) ≠ [] then
            [(format_table w (line :: rest.takeWhile is_table_line) ++ ['\n', '\n'],
              Style.mono)]
           else [])
         else [])
        ++ render_go w fuel (rest.drop (rest.takeWhile is_table_line).length)
      else if line.take 2 = ['#', ' '] then
        (line.drop 2 ++ ['\n'], Style.header) :: render_go w fuel rest
      else if line.take 3 = ['#', '#', ' '] then
        (line.drop 3 ++ ['\n'], Style.header) :: render_go w fuel rest
      else if hasDoubleStar line || decide ('*' ∈ line) then
        parse_inline_formatting line ++ render_go w fuel rest
      else
        (line ++ ['\n'], Style.plain) :: render_go w fuel rest) := rfl

theorem renderLines_plain_step (w : Char → Nat) (line : Str) (rest : List Str)
    (h1 : is_table_line line = false)
    (h2 : line.take 2 ≠ ['#', ' '])
    (h3 : line.take 3 ≠ ['#', '#', ' '])
    (h4 : '*' ∉ line) :
    renderLines w (line :: rest) = (line ++ ['\n'], Style.plain) :: renderLines w rest := by
  unfold renderLines
  simp only [List.length_cons]
  rw [render_go_succ]
  rw [if_neg (by rw [h1]; simp), if_neg h2, if_neg h3]
  rw [if_neg (by rw [hasDoubleStar_of_no_star line h4]; simp [h4])]

theorem renderLines_header_step (w : Char → Nat) (line : Str) (rest : List Str)
    (h1 : is_table_line line = false)
    (h2 : line.take 2 = ['#', ' ']) :
    renderLines w (line :: rest) =
      (line.drop 2 ++ ['\n'], Style.header) :: renderLines w rest := by
  unfold renderLines
  simp only [List.length_cons]
  rw [render_go_succ]
  rw [if_neg (by rw [h1]; simp), if_pos h2]

theorem renderLines_header2_step (w : Char → Nat) (line : Str) (rest : List Str)
    (h1 : is_table_line line = false)
    (h2 : line.take 2 ≠ ['#', ' '])
    (h3 : line.take 3 = ['#', '#', ' ']) :
    renderLines w (line :: rest) =
      (line.drop 3 ++ ['\n'], Style.header) :: renderLines w rest := by
  unfold renderLines
  simp only [List.length_cons]
  rw [render_go_succ]
  rw [if_neg (by rw [h1]; simp), if_neg h2, if_pos h3]

theorem renderLines_inline_step (w : Char → Nat) (line : Str) (rest : List Str)
    (h1 : is_table_line line = false)
    (h2 : line.take 2 ≠ ['#', ' '])
    (h3 : line.take 3 ≠ ['#', '#', ' '])
    (h4 : '*' ∈ line) :
    renderLines w (line :: rest) =
      parse_inline_formatting line ++ renderLines w rest := by
  unfold renderLines
  simp only [List.length_cons]
  rw [render_go_succ]
  rw [if_neg (by rw [h1]; simp), if_neg h2, if_neg h3]
  rw [if_pos (by simp [h4])]

/-! ### C3: fenced code blocks -/

def btick : Char := Char.ofNat 96

/-- C3 (amended): `update_preview` has no fenced-code handling at all: a
line starting with three backticks is not treated as a delimiter — it is
rendered like any other non-table, non-header, star-free prose line, as
a Plain run consisting of the line itself plus a newline, and the lines
between two such delimiter lines are likewise rendered individually
(plain/header/table dispatch), never as a Monospace run. -/
theorem fenced_delimiter_rendered_plain (w : Char → Nat) (t : Str)
    (rest : List Str) (h : '*' ∉ t) :
    renderLines w ((btick :: btick :: btick :: t) :: rest)
      = ((btick :: btick :: btick :: t) ++ ['\n'], Style.plain) :: renderLines w rest := by
  have hstar : '*' ∉ btick :: btick :: btick :: t := by
    intro m
    rcases List.mem_cons.mp m with e | m
    · exact absurd e (by decide)
    rcases List.mem_cons.mp m with e | m
    · exact absurd e (by decide)
    rcases List.mem_cons.mp m with e | m
    · exact absurd e (by decide)
    exact h m
  refine renderLines_plain_step w _ rest ?_ ?_ ?_ hstar
  · exact is_table_line_false_of_head btick _ (by decide) (by decide)
  · intro hh
    rw [show (btick :: btick :: btick :: t).take 2 = [btick, btick] from rfl] at hh
    exact absurd hh (by decide)
  · intro hh
    rw [show (btick :: btick :: btick :: t).take 3 = [btick, btick, btick] from rfl] at hh
    exact absurd hh (by decide)

def bodyFenced : Str := "t\n\n```\ncode line\n```".toList

def runTicks : Str := "```\n".toList

def runCode : Str := "code line\n".toList

/-- C3 counterexample: for the body whose preview lines are
`"```"`, `"code line"`, `"```"`, the renderer emits three Plain runs —
the two delimiter lines are emitted (not suppressed), the content line
is Plain (not Monospace), and no Monospace run exists in the output,
contradicting the claim. -/
theorem fenced_code_not_monospace_cex :
    update_preview unitWidth [] bodyFenced =
        [(runTicks, Style.plain), (runCode, Style.plain), (runTicks, Style.plain)]
      ∧ ∀ r ∈ update_preview unitWidth [] bodyFenced, r.2 ≠ Style.mono := by
  constructor
  · decide
  · decide

/-- C3 (amended) witness at a concrete delimiter line. -/
theorem fenced_delimiter_rendered_plain_witness :
    renderLines unitWidth [[btick, btick, btick]]
      = ([btick, btick, btick] ++ ['\n'], Style.plain) :: renderLines unitWidth [] :=
  fenced_delimiter_rendered_plain unitWidth [] [] (by decide)

/-! ### C4: header markers -/

/-- C4 (amended): only `"# "` and `"## "` are recognised as header
markers (marker stripped, remainder emitted as a Header run); a line
starting with `"### "` matches neither test and — containing no `*` — is
emitted verbatim as a Plain run, marker included, not as a Header run. -/
theorem header_marker_dispatch (w : Char → Nat) (l : Str) (rest : List Str) :
    (l.take 2 = ['#', ' '] →
      renderLines w (l :: rest) = (l.drop 2 ++ ['\n'], Style.header) :: renderLines w rest)
    ∧ (l.take 3 = ['#', '#', ' '] →
      renderLines w (l :: rest) = (l.drop 3 ++ ['\n'], Style.header) :: renderLines w rest)
    ∧ (l.take 4 = ['#', '#', '#', ' '] → '*' ∉ l →
      renderLines w (l :: rest) = (l ++ ['\n'], Style.plain) :: renderLines w rest) := by
  refine ⟨?_, ?_, ?_⟩
  · intro h2
    obtain ⟨t, rfl⟩ := take_two_shape h2
    exact renderLines_header_step w _ rest
      (is_table_line_false_of_head '#' _ (by decide) (by decide)) h2
  · intro h3
    obtain ⟨t, rfl⟩ := take_three_shape h3
    refine renderLines_header2_step w _ rest
      (is_table_line_false_of_head '#' _ (by decide) (by decide)) ?_ h3
    intro hh
    rw [show ('#' :: '#' :: ' ' :: t).take 2 = ['#', '#'] from rfl] at hh
    exact absurd hh (by decide)
  · intro h4 hstar
    obtain ⟨t, rfl⟩ := take_four_shape h4
    refine renderLines_plain_step w _ rest
      (is_table_line_false_of_head '#' _ (by decide) (by decide)) ?_ ?_ hstar
    · intro hh
      rw [show ('#' :: '#' :: '#' :: ' ' :: t).take 2 = ['#', '#'] from rfl] at hh
      exact absurd hh (by decide)
    · intro hh
      rw [show ('#' :: '#' :: '#' :: ' ' :: t).take 3 = ['#', '#', '#'] from rfl] at hh
      exact absurd hh (by decide)

def bodyH3 : Str := "t\n\n### T".toList

def runH3 : Str := "### T\n".toList

/-- C4 counterexample: the body line `"### T"` is rendered as a Plain
run `"### T\n"` with the marker still present, and the output contains
no Header run — `update_preview` only tests `"# "` and `"## "`. -/
theorem header_three_not_header_cex :
    update_preview unitWidth [] bodyH3 = [(runH3, Style.plain)]
      ∧ ∀ r ∈ update_preview unitWidth [] bodyH3, r.2 ≠ Style.header := by
  constructor
  · decide
  · decide

/-- C4 (amended) witness at concrete `"# x"`, `"## x"`, `"### x"` lines. -/
theorem header_marker_dispatch_witness :
    renderLines unitWidth ["# x".toList]
        = ("x\n".toList, Style.header) :: renderLines unitWidth []
      ∧ renderLines unitWidth ["## x".toList]
        = ("x\n".toList, Style.header) :: renderLines unitWidth []
      ∧ renderLines unitWidth ["### x".toList]
        = ("### x\n".toList, Style.plain) :: renderLines unitWidth [] :=
  ⟨(header_marker_dispatch unitWidth _ []).1 (by decide),
   (header_marker_dispatch unitWidth _ []).2.1 (by decide),
   (header_marker_dispatch unitWidth _ []).2.2 (by decide) (by decide)⟩

/-! ### C5: inline emphasis delimiters -/

/-- C5 (amended): the inline parser recognises only the asterisk
delimiters, testing `**…**` (Bold) before `*…*` (Italic) at each cursor
position; a matched `**x**` emits `x` as a Bold run and a matched `*x*`
emits `x` as an Italic run, delimiters removed, each followed by the
final newline Plain run.  `__…__` and `_…_` are not delimiters at all: a
line `__x__` containing no asterisk never reaches the inline parser and
is emitted verbatim as a single Plain run. -/
theorem emphasis_star_delimiters (w : Char → Nat) (x : Str) (rest : List Str)
    (hx : '*' ∉ x) (hne : x ≠ []) :
    renderLines w (('*' :: '*' :: (x ++ ['*', '*'])) :: rest)
        = (x, Style.bold) :: (['\n'], Style.plain) :: renderLines w rest
      ∧ renderLines w (('*' :: (x ++ ['*'])) :: rest)
        = (x, Style.italic) :: (['\n'], Style.plain) :: renderLines w rest
      ∧ renderLines w (('_' :: '_' :: (x ++ ['_', '_'])) :: rest)
        = (('_' :: '_' :: (x ++ ['_', '_'])) ++ ['\n'], Style.plain)
            :: renderLines w rest := by
  refine ⟨?_, ?_, ?_⟩
  · rw [renderLines_inline_step w _ rest
      (is_table_line_false_of_head '*' _ (by decide) (by decide))
      (by
        intro hh
        rw [show ('*' :: '*' :: (x ++ ['*', '*'])).take 2 = ['*', '*'] from rfl] at hh
        exact absurd hh (by decide))
      (by
        intro hh
        obtain ⟨t, ht⟩ := take_three_shape hh
        injection ht with h1 _
        exact absurd h1 (by decide))
      (List.mem_cons_self _ _)]
    rw [show parse_inline_formatting ('*' :: '*' :: (x ++ ['*', '*']))
        = inline_loop ('*' :: '*' :: (x ++ ['*', '*'])) ++ [(['\n'], Style.plain)]
        from rfl]
    rw [inline_loop_bold x hx]
    rfl
  · rw [renderLines_inline_step w _ rest
      (is_table_line_false_of_head '*' _ (by decide) (by decide))
      (by
        intro hh
        obtain ⟨t, ht⟩ := take_two_shape hh
        injection ht with h1 _
        exact absurd h1 (by decide))
      (by
        intro hh
        obtain ⟨t, ht⟩ := take_three_shape hh
        injection ht with h1 _
        exact absurd h1 (by decide))
      (List.mem_cons_self _ _)]
    rw [show parse_inline_formatting ('*' :: (x ++ ['*']))
        = inline_loop ('*' :: (x ++ ['*'])) ++ [(['\n'], Style.plain)] from rfl]
    rw [inline_loop_italic x hx hne]
    rfl
  · refine renderLines_plain_step w _ rest
      (is_table_line_false_of_head '_' _ (by decide) (by decide))
      (by
        intro hh
        rw [show ('_' :: '_' :: (x ++ ['_', '_'])).take 2 = ['_', '_'] from rfl] at hh
        exact absurd hh (by decide))
      (by
        intro hh
        obtain ⟨t, ht⟩ := take_three_shape hh
        injection ht with h1 _
        exact absurd h1 (by decide))
      ?_
    intro m
    rcases List.mem_cons.mp m with e | m
    · exact absurd e (by decide)
    rcases List.mem_cons.mp m with e | m
    · exact absurd e (by decide)
    rcases List.mem_append.mp m with m | m
    · exact hx m
    · rcases List.mem_cons.mp m with e | m
      · exact absurd e (by decide)
      rcases List.mem_cons.mp m with e | m
      · exact absurd e (by decide)
      exact absurd m (List.not_mem_nil _)

def bodyUnderscore : Str := "t\n\n__x__".toList

def runUnderscore : Str := "__x__\n".toList

/-- C5 counterexample: the line `__x__` (a matched double-underscore
pair) is not parsed as Bold: the whole line is emitted verbatim as one
Plain run, underscores included, and no Bold or Italic run occurs —
`update_preview` dispatches to the inline parser only on `*`, and the
parser knows no underscore delimiters. -/
theorem underscore_not_bold_cex :
    update_preview unitWidth [] bodyUnderscore = [(runUnderscore, Style.plain)]
      ∧ ∀ r ∈ update_preview unitWidth [] bodyUnderscore,
          r.2 ≠ Style.bold ∧ r.2 ≠ Style.italic := by
  constructor
  · decide
  · decide

def emphX : Str := "x".toList

/-- C5 (amended) witness at concrete `**x**`, `*x*` and `__x__` lines. -/
theorem emphasis_star_delimiters_witness :
    renderLines unitWidth [('*' :: '*' :: (emphX ++ ['*', '*']))]
        = (emphX, Style.bold) :: (['\n'], Style.plain) :: renderLines unitWidth []
      ∧ renderLines unitWidth [('*' :: (emphX ++ ['*']))]
        = (emphX, Style.italic) :: (['\n'], Style.plain) :: renderLines unitWidth []
      ∧ renderLines unitWidth [('_' :: '_' :: (emphX ++ ['_', '_']))]
        = (('_' :: '_' :: (emphX ++ ['_', '_'])) ++ ['\n'], Style.plain)
            :: renderLines unitWidth [] :=
  emphasis_star_delimiters unitWidth emphX [] (by decide) (by decide)

/-! ### C10: pad_text preserves content -/

/-- C10: `pad_text` never truncates or alters the cell text: the result
is always some spaces, then the text unchanged, then some spaces; when
the estimated display width of the text already reaches the target
width, the text is returned with no padding at all; and for Center
alignment with an odd amount of padding the extra space goes on the
right (right pad = left pad + 1). -/
theorem pad_text_preserves_content (w : Char → Nat) (t : Str) (width : Nat)
    (a : Align) :
    (∃ l r, pad_text w t width a
        = List.replicate l ' ' ++ t ++ List.replicate r ' ')
    ∧ (width ≤ estimate_display_width w t → pad_text w t width a = t)
    ∧ (a = Align.center → (width - estimate_display_width w t) % 2 = 1 →
        ∃ l, pad_text w t width a
          = List.replicate l ' ' ++ t ++ List.replicate (l + 1) ' ') := by
  refine ⟨?_, ?_, ?_⟩
  · cases a with
    | center => exact ⟨_, _, rfl⟩
    | right =>
      exact ⟨width - estimate_display_width w t, 0, by simp [pad_text]⟩
    | left =>
      exact ⟨0, width - estimate_display_width w t, by simp [pad_text]⟩
  · intro hle
    have hp : width - estimate_display_width w t = 0 := Nat.sub_eq_zero_of_le hle
    cases a <;> simp [pad_text, hp]
  · intro ha hodd
    subst ha
    have heq : (width - estimate_display_width w t)
          - (width - estimate_display_width w t) / 2
        = (width - estimate_display_width w t) / 2 + 1 := by omega
    exact ⟨(width - estimate_display_width w t) / 2, by
      rw [show pad_text w t width Align.center
          = List.replicate ((width - estimate_display_width w t) / 2) ' ' ++ t ++
            List.replicate ((width - estimate_display_width w t)
              - (width - estimate_display_width w t) / 2) ' ' from rfl, heq]⟩

def padT : Str := "ab".toList

/-- C10 witness: centring `"ab"` (estimated width 2) in width 5 gives
one space on the left and two on the right. -/
theorem pad_text_preserves_content_witness :
    ∃ l, pad_text unitWidth padT 5 Align.center
      = List.replicate l ' ' ++ padT ++ List.replicate (l + 1) ' ' :=
  (pad_text_preserves_content unitWidth padT 5 Align.center).2.2 rfl (by decide)

/-! ### C7: separator recognition and alignments -/

/-- The separator-cell pattern as the spec words it: optional leading
colon, one or more dashes, optional trailing colon. -/
def sepPatternSpec (s : Str) : Prop :=
  ∃ (lead trail : Bool) (k : Nat), 1 ≤ k ∧
    s = (if lead then [':'] else []) ++ List.replicate k '-' ++
      (if trail then [':'] else [])

theorem eq_dropLast_append_of_getLast? (l : Str) (x : Char)
    (h : l.getLast? = some x) : l = l.dropLast ++ [x] := by
  induction l using List.reverseRecOn with
  | nil => simp at h
  | append_singleton l' a _ =>
    rw [List.getLast?_concat] at h
    rw [List.dropLast_concat]
    injection h with h
    rw [h]

theorem head?_replicate_succ (k : Nat) (c : Char) :
    (List.replicate (k + 1) c).head? = some c := by
  rw [List.replicate_succ]; rfl

theorem getLast?_replicate_succ (k : Nat) (c : Char) :
    (List.replicate (k + 1) c).getLast? = some c := by
  rw [List.replicate_succ', List.getLast?_concat]

theorem stripLeadColon_colon (x : Str) : stripLeadColon (':' :: x) = x := by
  unfold stripLeadColon
  rw [if_pos (show (':' :: x).head? = some ':' from rfl)]
  rfl

theorem stripLeadColon_of_ne (s : Str) (h : ¬ s.head? = some ':') :
    stripLeadColon s = s := by
  unfold stripLeadColon
  rw [if_neg h]

theorem stripTrailColon_concat (x : Str) : stripTrailColon (x ++ [':']) = x := by
  unfold stripTrailColon
  rw [if_pos (List.getLast?_concat _), List.dropLast_concat]

theorem stripTrailColon_of_ne (s : Str) (h : ¬ s.getLast? = some ':') :
    stripTrailColon s = s := by
  unfold stripTrailColon
  rw [if_neg h]

theorem matchSep_iff (s : Str) : matchSep s = true ↔ sepPatternSpec s := by
  constructor
  · intro h
    unfold matchSep at h
    simp only [Bool.and_eq_true, decide_eq_true_eq, List.all_eq_true,
      decide_eq_true_eq] at h
    obtain ⟨hne, hall⟩ := h
    by_cases h1 : s.head? = some ':'
    · obtain ⟨a, s', rfl⟩ : ∃ a s', s = a :: s' := by
        cases s with
        | nil => simp at h1
        | cons a s' => exact ⟨a, s', rfl⟩
      have ha : a = ':' := by simpa using h1
      subst ha
      rw [stripLeadColon_colon] at hne hall
      by_cases h2 : s'.getLast? = some ':'
      · rw [show stripTrailColon s' = s'.dropLast from by
          unfold stripTrailColon; rw [if_pos h2]] at hne hall
        have hs' : s' = s'.dropLast ++ [':'] :=
          eq_dropLast_append_of_getLast? s' ':' h2
        have hu : s'.dropLast = List.replicate s'.dropLast.length '-' :=
          List.eq_replicate_of_mem hall
        refine ⟨true, true, s'.dropLast.length, ?_, ?_⟩
        · cases hd : s'.dropLast with
          | nil => exact absurd hd hne
          | cons b u => simp [hd]
        · conv_lhs => rw [hs']
          rw [← hu]
          simp
      · rw [stripTrailColon_of_ne s' h2] at hne hall
        have hu : s' = List.replicate s'.length '-' := List.eq_replicate_of_mem hall
        refine ⟨true, false, s'.length, ?_, ?_⟩
        · cases hd : s' with
          | nil => exact absurd hd hne
          | cons b u => simp [hd]
        · rw [← hu]
          simp
    · rw [stripLeadColon_of_ne s h1] at hne hall
      by_cases h2 : s.getLast? = some ':'
      · rw [show stripTrailColon s = s.dropLast from by
          unfold stripTrailColon; rw [if_pos h2]] at hne hall
        have hs : s = s.dropLast ++ [':'] := eq_dropLast_append_of_getLast? s ':' h2
        have hu : s.dropLast = List.replicate s.dropLast.length '-' :=
          List.eq_replicate_of_mem hall
        refine ⟨false, true, s.dropLast.length, ?_, ?_⟩
        · cases hd : s.dropLast with
          | nil => exact absurd hd hne
          | cons b u => simp [hd]
        · conv_lhs => rw [hs]
          rw [← hu]
          simp
      · rw [stripTrailColon_of_ne s h2] at hne hall
        have hu : s = List.replicate s.length '-' := List.eq_replicate_of_mem hall
        refine ⟨false, false, s.length, ?_, ?_⟩
        · cases hd : s with
          | nil => exact absurd hd hne
          | cons b u => simp [hd]
        · rw [← hu]
          simp
  · rintro ⟨lead, trail, k, hk, rfl⟩
    obtain ⟨k', rfl⟩ : ∃ k', k = k' + 1 := ⟨k - 1, by omega⟩
    unfold matchSep
    have hd : ∀ m : Nat,
        (decide ((List.replicate (m + 1) '-' : Str) ≠ []) &&
          (List.replicate (m + 1) '-' : Str).all (fun c => c = '-')) = true := by
      intro m
      simp [List.all_eq_true, List.eq_of_mem_replicate]
    cases lead <;> cases trail <;>
      simp only [Bool.false_eq_true, if_false, eq_self_iff_true, if_true,
        List.nil_append, List.append_nil, List.cons_append]
    -- lead = false, trail = false : the bare dash run
    · have hh : ¬ ((List.replicate (k' + 1) '-' : Str).head? = some ':') := by
        rw [head?_replicate_succ]
        intro hx
        exact absurd (Option.some.inj hx) (by decide)
      have hg : ¬ ((List.replicate (k' + 1) '-' : Str).getLast? = some ':') := by
        rw [getLast?_replicate_succ]
        intro hx
        exact absurd (Option.some.inj hx) (by decide)
      rw [stripLeadColon_of_ne _ hh, stripTrailColon_of_ne _ hg]
      exact hd k'
    -- lead = false, trail = true : dashes then a colon
    · have hh : ¬ ((List.replicate (k' + 1) '-' ++ [':'] : Str).head? = some ':') := by
        rw [List.replicate_succ, List.cons_append]
        intro hx
        exact absurd (Option.some.inj hx) (by decide)
      rw [stripLeadColon_of_ne _ hh, stripTrailColon_concat]
      exact hd k'
    -- lead = true, trail = false : a colon then dashes
    · have hg : ¬ ((List.replicate (k' + 1) '-' : Str).getLast? = some ':') := by
        rw [getLast?_replicate_succ]
        intro hx
        exact absurd (Option.some.inj hx) (by decide)
      rw [stripLeadColon_colon, stripTrailColon_of_ne _ hg]
      exact hd k'
    -- lead = true, trail = true : colon, dashes, colon
    · rw [show ':' :: (List.replicate (k' + 1) '-' ++ [':'])
          = ':' :: (List.replicate (k' + 1) '-' ++ [':']) from rfl,
        stripLeadColon_colon, stripTrailColon_concat]
      exact hd k'

/-- C7: for a table line, `is_separator_line` holds iff every
pipe-delimited cell of its inner content, after trimming, is empty or
matches "optional leading colon, one or more dashes, optional trailing
colon"; alignments are derived cell-wise by `get_column_alignments`, and
on a cell of that pattern the derived alignment is Center when both
colons are present, Right when only the trailing colon is present, and
Left otherwise. -/
theorem separator_recognition_and_alignment (l : Str)
    (h : is_table_line l = true) :
    (is_separator_line l = true ↔
      ∀ c ∈ pySplit '|' (((pyStrip l).drop 1).dropLast),
        pyStrip c = [] ∨ sepPatternSpec (pyStrip c))
    ∧ get_column_alignments l = (parse_table_cells l).map cell_alignment
    ∧ (∀ (lead trail : Bool) (k : Nat) (c : Str), 1 ≤ k →
        c = (if lead then [':'] else []) ++ List.replicate k '-' ++
          (if trail then [':'] else []) →
        cell_alignment c =
          (if lead && trail then Align.center
           else if trail then Align.right else Align.left)) := by
  refine ⟨?_, rfl, ?_⟩
  · have hsep : is_separator_line l =
        (pySplit '|' (((pyStrip l).drop 1).dropLast)).all
          (fun cell => decide (pyStrip cell = []) || matchSep (pyStrip cell)) := by
      unfold is_separator_line
      rw [h]
      rfl
    rw [hsep, List.all_eq_true]
    constructor
    · intro hall c hc
      have := hall c hc
      simp only [Bool.or_eq_true, decide_eq_true_eq, matchSep_iff] at this
      exact this
    · intro hall c hc
      have := hall c hc
      simp only [Bool.or_eq_true, decide_eq_true_eq, matchSep_iff]
      exact this
  · intro lead trail k c hk hc
    subst hc
    obtain ⟨k', rfl⟩ : ∃ k', k = k' + 1 := ⟨k - 1, by omega⟩
    cases lead <;> cases trail <;>
      simp only [Bool.false_eq_true, if_false, eq_self_iff_true, if_true,
        List.nil_append, List.append_nil, List.cons_append]
    -- no colons
    · have hns : ∀ x ∈ (List.replicate (k' + 1) '-' : Str), pyIsSpace x = false := by
        intro x hx
        rw [List.eq_of_mem_replicate hx]
        decide
      unfold cell_alignment
      rw [pyStrip_eq_self_of_no_space _ hns]
      rw [if_neg (by
        intro hx
        rw [head?_replicate_succ] at hx
        exact absurd (Option.some.inj hx.1) (by decide))]
      rw [if_neg (by
        intro hx
        rw [getLast?_replicate_succ] at hx
        exact absurd (Option.some.inj hx) (by decide))]
      rfl
    -- trailing colon only
    · have hns : ∀ x ∈ (List.replicate (k' + 1) '-' ++ [':'] : Str),
          pyIsSpace x = false := by
        intro x hx
        rcases List.mem_append.mp hx with hx | hx
        · rw [List.eq_of_mem_replicate hx]; decide
        · rw [List.mem_singleton.mp hx]; decide
      unfold cell_alignment
      rw [pyStrip_eq_self_of_no_space _ hns]
      rw [if_neg (by
        intro hx
        have := hx.1
        rw [List.replicate_succ, List.cons_append] at this
        exact absurd (Option.some.inj this) (by decide))]
      rw [if_pos (List.getLast?_concat _)]
      rfl
    -- leading colon only
    · have hns : ∀ x ∈ (':' :: List.replicate (k' + 1) '-' : Str),
          pyIsSpace x = false := by
        intro x hx
        rcases List.mem_cons.mp hx with hx | hx
        · rw [hx]; decide
        · rw [List.eq_of_mem_replicate hx]; decide
      unfold cell_alignment
      rw [pyStrip_eq_self_of_no_space _ hns]
      rw [if_neg (by
        intro hx
        have := hx.2
        rw [show (':' :: List.replicate (k' + 1) '-' : Str).getLast?
            = (List.replicate (k' + 1) '-' : Str).getLast? from by
          rw [List.replicate_succ, List.getLast?_cons_cons]] at this
        rw [getLast?_replicate_succ] at this
        exact absurd (Option.some.inj this) (by decide))]
      rw [if_neg (by
        intro hx
        rw [show (':' :: List.replicate (k' + 1) '-' : Str).getLast?
            = (List.replicate (k' + 1) '-' : Str).getLast? from by
          rw [List.replicate_succ, List.getLast?_cons_cons]] at hx
        rw [getLast?_replicate_succ] at hx
        exact absurd (Option.some.inj hx) (by decide))]
      rfl
    -- both colons
    · have hns : ∀ x ∈ (':' :: (List.replicate (k' + 1) '-' ++ [':']) : Str),
          pyIsSpace x = false := by
        intro x hx
        rcases List.mem_cons.mp hx with hx | hx
        · rw [hx]; decide
        rcases List.mem_append.mp hx with hx | hx
        · rw [List.eq_of_mem_replicate hx]; decide
        · rw [List.mem_singleton.mp hx]; decide
      unfold cell_alignment
      rw [pyStrip_eq_self_of_no_space _ hns]
      rw [if_pos ⟨rfl, by
        rw [show (':' :: (List.replicate (k' + 1) '-' ++ [':']) : Str)
            = (':' :: List.replicate (k' + 1) '-') ++ [':'] from rfl]
        exact List.getLast?_concat _⟩]
      rfl

def sepCellBoth : Str := ":---:".toList

def sepLineConcrete : Str := "|:--:|".toList

/-- C7 witness: the cell `":---:"` (leading and trailing colon around
three dashes) is assigned Center alignment, instantiating the theorem at
the concrete separator line `"|:--:|"`. -/
theorem separator_recognition_witness :
    cell_alignment sepCellBoth = Align.center :=
  (separator_recognition_and_alignment sepLineConcrete (by decide)).2.2
    true true 3 sepCellBoth (by decide) (by decide)

/-! ### C8: the concrete two-column scenario -/

def l8a : Str := "| A | B |".toList

def l8b : Str := "|---|---|".toList

def l8c : Str := "| 1 | 2 |".toList

def scenario1Lines : List Str := [l8a, l8b, l8c]

/-- C8: on the lines `["| A | B |", "|---|---|", "| 1 | 2 |"]` the
formatter derives alignments `[Left, Left]`, column widths `[3, 3]` (the
minimum-width floor), and produces exactly 5 output lines (top border,
header row, header separator, one data row, bottom border).  The
classifier hypotheses pin the display width of the four cell characters
to one column each, their value in the real Unicode tables. -/
theorem scenario1_table (w : Char → Nat) (hA : w 'A' = 2) (hB : w 'B' = 2)
    (h1 : w '1' = 2) (h2 : w '2' = 2) :
    table_aligns scenario1Lines = [Align.left, Align.left]
      ∧ table_col_widths w scenario1Lines = [3, 3]
      ∧ (format_table_lines w scenario1Lines).length = 5 := by
  have hM : table_max_cols scenario1Lines = 2 := by decide
  have hH : table_header scenario1Lines = [['A'], ['B']] := by decide
  have hR : table_rows scenario1Lines = [[['1'], ['2']]] := by decide
  have eA : estimate_display_width w ['A'] = 1 := by
    rw [estimate_eq_sum_div_two, show clean_stars ['A'] = ['A'] from by decide]
    simp [hA]
  have eB : estimate_display_width w ['B'] = 1 := by
    rw [estimate_eq_sum_div_two, show clean_stars ['B'] = ['B'] from by decide]
    simp [hB]
  have e1 : estimate_display_width w ['1'] = 1 := by
    rw [estimate_eq_sum_div_two, show clean_stars ['1'] = ['1'] from by decide]
    simp [h1]
  have e2 : estimate_display_width w ['2'] = 1 := by
    rw [estimate_eq_sum_div_two, show clean_stars ['2'] = ['2'] from by decide]
    simp [h2]
  refine ⟨by decide, ?_, ?_⟩
  · simp only [table_col_widths]
    rw [hM, hH, hR]
    simp only [List.range_succ, List.range_zero, List.nil_append,
      List.map_append, List.map_cons, List.map_nil, List.foldl_cons,
      List.foldl_nil, List.length_cons, List.length_nil,
      List.getD_cons_zero, List.getD_cons_succ]
    norm_num [eA, eB, e1, e2]
  · simp only [format_table_lines]
    rw [if_neg (by decide), if_neg (by decide)]
    rw [hR]
    simp

/-- C8 witness: the theorem instantiated at the unit-width classifier,
which satisfies all four character-width hypotheses. -/
theorem scenario1_table_witness :
    table_aligns scenario1Lines = [Align.left, Align.left]
      ∧ table_col_widths unitWidth scenario1Lines = [3, 3]
      ∧ (format_table_lines unitWidth scenario1Lines).length = 5 :=
  scenario1_table unitWidth rfl rfl rfl rfl

/-! ### C6: uniform row width of format_table -/

theorem joinSep_length (sep : Str) :
    ∀ parts : List Str, parts ≠ [] →
      (joinSep sep parts).length
        = (parts.map List.length).sum + sep.length * (parts.length - 1) := by
  intro parts
  induction parts with
  | nil => intro h; exact absurd rfl h
  | cons x t ih =>
    intro _
    cases t with
    | nil => simp [joinSep]
    | cons y r =>
      have hlen := ih (by simp)
      rw [show joinSep sep (x :: y :: r) = x ++ sep ++ joinSep sep (y :: r) from rfl]
      simp only [List.length_append, List.map_cons, List.sum_cons,
        List.length_cons, Nat.add_sub_cancel] at hlen ⊢
      rw [Nat.mul_succ]
      omega

theorem pad_text_length (w : Char → Nat) (t : Str) (width : Nat) (a : Align) :
    (pad_text w t width a).length
      = t.length + (width - estimate_display_width w t) := by
  cases a <;> simp [pad_text] <;> omega

theorem le_foldl_max (g : α → Nat) :
    ∀ (l : List α) (a : Nat), a ≤ l.foldl (fun m x => max m (g x)) a := by
  intro l
  induction l with
  | nil => intro a; simp
  | cons x t ih =>
    intro a
    exact le_trans (Nat.le_max_left a (g x)) (ih (max a (g x)))

theorem foldl_max_of_mem (g : α → Nat) :
    ∀ (l : List α) (a : Nat) (x : α), x ∈ l →
      g x ≤ l.foldl (fun m y => max m (g y)) a := by
  intro l
  induction l with
  | nil => intro a x hx; cases hx
  | cons y t ih =>
    intro a x hx
    rcases List.mem_cons.mp hx with rfl | hx
    · exact le_trans (Nat.le_max_right a (g x)) (le_foldl_max g t _)
    · exact ih _ x hx

theorem le_foldl_guard_max (p : α → Prop) [DecidablePred p] (g : α → Nat) :
    ∀ (l : List α) (a : Nat),
      a ≤ l.foldl (fun m y => if p y then max m (g y) else m) a := by
  intro l
  induction l with
  | nil => intro a; simp
  | cons y t ih =>
    intro a
    refine le_trans ?_ (ih _)
    show a ≤ if p y then max a (g y) else a
    by_cases hp : p y
    · rw [if_pos hp]; exact Nat.le_max_left _ _
    · rw [if_neg hp]

theorem foldl_guard_max_of_mem (p : α → Prop) [DecidablePred p] (g : α → Nat) :
    ∀ (l : List α) (a : Nat) (x : α), x ∈ l → p x →
      g x ≤ l.foldl (fun m y => if p y then max m (g y) else m) a := by
  intro l
  induction l with
  | nil => intro a x hx; cases hx
  | cons y t ih =>
    intro a x hx hp
    rcases List.mem_cons.mp hx with rfl | hx
    · refine le_trans ?_ (le_foldl_guard_max p g t _)
      show g x ≤ if p x then max a (g x) else a
      rw [if_pos hp]
      exact Nat.le_max_right _ _
    · exact ih _ x hx hp

theorem padRightTo_length (l : List α) (n : Nat) (x : α) :
    (padRightTo l n x).length = l.length + (n - l.length) := by
  simp [padRightTo]

theorem parse_table_cells_ne_nil (l : Str) (h : is_table_line l = true) :
    parse_table_cells l ≠ [] := by
  unfold is_table_line at h
  simp only [Bool.and_eq_true, decide_eq_true_eq] at h
  obtain ⟨⟨h1, h2⟩, _⟩ := h
  unfold parse_table_cells
  rw [if_neg (by simp [h1, h2])]
  intro hmap
  exact pySplit_ne_nil '|' _ (List.map_eq_nil_iff.mp hmap)

theorem zipWith3_eq_range_map (f : α → β → γ → δ) (d1 : α) (d2 : β) (d3 : γ) :
    ∀ (n : Nat) (l1 : List α) (l2 : List β) (l3 : List γ),
      l1.length = n → l2.length = n → n ≤ l3.length →
      zipWith3 f l1 l2 l3 =
        (List.range n).map
          (fun i => f (l1.getD i d1) (l2.getD i d2) (l3.getD i d3)) := by
  intro n
  induction n with
  | zero =>
    intro l1 l2 l3 h1 _ _
    rw [List.length_eq_zero.mp h1]
    rfl
  | succ n ih =>
    intro l1 l2 l3 h1 h2 h3
    obtain ⟨a, t1, rfl⟩ : ∃ a t, l1 = a :: t := by
      cases l1 with
      | nil => simp at h1
      | cons a t => exact ⟨a, t, rfl⟩
    obtain ⟨b, t2, rfl⟩ : ∃ b t, l2 = b :: t := by
      cases l2 with
      | nil => simp at h2
      | cons b t => exact ⟨b, t, rfl⟩
    obtain ⟨c, t3, rfl⟩ : ∃ c t, l3 = c :: t := by
      cases l3 with
      | nil => simp at h3
      | cons c t => exact ⟨c, t, rfl⟩
    show f a b c :: zipWith3 f t1 t2 t3 = _
    rw [List.range_succ_eq_map, List.map_cons, List.map_map]
    simp only [List.getD_cons_zero]
    congr 1
    rw [ih t1 t2 t3 (by simpa using h1) (by simpa using h2) (by simpa using h3)]
    refine List.map_congr_left ?_
    intro i _
    simp [List.getD_cons_succ]

theorem range_map_getD (l : List α) (d : α) :
    (List.range l.length).map (fun i => l.getD i d) = l := by
  induction l with
  | nil => rfl
  | cons a t ih =>
    rw [List.length_cons, List.range_succ_eq_map, List.map_cons,
      List.getD_cons_zero, List.map_map]
    congr 1

theorem range_map_getD_comp (l : List α) (d : α) (G : α → β) :
    (List.range l.length).map (fun i => G (l.getD i d)) = l.map G := by
  rw [show (fun i => G (l.getD i d)) = G ∘ (fun i => l.getD i d) from rfl,
    ← List.map_map, range_map_getD]

theorem sum_map_add_const (l : List Nat) (c : Nat) :
    (l.map (fun x => x + c)).sum = l.sum + c * l.length := by
  induction l with
  | nil => simp
  | cons a t ih =>
    simp only [List.map_cons, List.sum_cons, List.length_cons, ih]
    ring

theorem row_line_length (widths : List Nat) (parts : List Str)
    (hne : widths ≠ [])
    (hmap : parts.map List.length = widths.map (fun x => x + 2))
    (a b c : Char) :
    (a :: (joinSep [b] parts ++ [c])).length
      = (widths.map (fun x => x + 3)).sum + 1 := by
  have hlen : parts.length = widths.length := by
    have := congrArg List.length hmap
    simpa using this
  have hw1 : 1 ≤ widths.length :=
    Nat.pos_of_ne_zero (fun h0 => hne (List.length_eq_zero.mp h0))
  have hpne : parts ≠ [] := by
    intro he
    rw [he] at hlen
    simp at hlen
    omega
  rw [List.length_cons, List.length_append, joinSep_length [b] parts hpne,
    hmap, sum_map_add_const widths 2, sum_map_add_const widths 3, hlen]
  simp only [List.length_cons, List.length_nil]
  omega

/-- C6 (amended): for a valid table block (at least 2 lines, all table
lines) whose cells all have estimated display width equal to their
character count (as is the case for ASCII text without emphasis
markers), every output line of `format_table` — top border, header row,
header separator, each data row, bottom border — has the same character
count, equal to the sum over the columns of `(column width + 3)` plus 1.
For cells with wide characters (estimated width ≠ character count) the
character counts differ between border and cell rows, which is the
counterexample below. -/
theorem format_table_uniform_row_length (w : Char → Nat) (lines : List Str)
    (hlen2 : 2 ≤ lines.length)
    (hall : ∀ l ∈ lines, is_table_line l = true)
    (hw : ∀ l ∈ lines, ∀ c ∈ parse_table_cells l,
        estimate_display_width w c = c.length) :
    ∀ s ∈ format_table_lines w lines,
      s.length = ((table_col_widths w lines).map (fun x => x + 3)).sum + 1 := by
  have hlne : lines ≠ [] := by
    intro h0
    rw [h0] at hlen2
    simp at hlen2
  have hhead_mem : lines.headD [] ∈ lines := by
    cases lines with
    | nil => exact absurd rfl hlne
    | cons a t => exact List.mem_cons_self a t
  have h0len : 1 ≤ (parse_table_cells (lines.headD [])).length :=
    Nat.pos_of_ne_zero (fun h =>
      parse_table_cells_ne_nil _ (hall _ hhead_mem) (List.length_eq_zero.mp h))
  have hH_le : (parse_table_cells (lines.headD [])).length ≤ table_max_cols lines :=
    le_foldl_max _ _ _
  have hn1 : 1 ≤ table_max_cols lines := le_trans h0len hH_le
  have hH_len : (table_header lines).length = table_max_cols lines := by
    unfold table_header
    rw [padRightTo_length]
    omega
  have hRow_len : ∀ r ∈ table_rows lines, r.length = table_max_cols lines := by
    intro r hr
    unfold table_rows at hr
    obtain ⟨r0, hr0, rfl⟩ := List.mem_map.mp hr
    have hr0le : r0.length ≤ table_max_cols lines :=
      foldl_max_of_mem _ (table_data_rows lines) _ r0 hr0
    rw [padRightTo_length]
    omega
  have hrl : ∀ r ∈ table_header lines :: table_rows lines,
      r.length = table_max_cols lines := by
    intro r hr
    rcases List.mem_cons.mp hr with rfl | hr
    · exact hH_len
    · exact hRow_len r hr
  have hW_len : (table_col_widths w lines).length = table_max_cols lines := by
    unfold table_col_widths
    simp
  have hWne : table_col_widths w lines ≠ [] := by
    intro h0
    rw [h0] at hW_len
    simp at hW_len
    omega
  have hmem_pad : ∀ (l0 : List Str) (n : Nat) (x : Str),
      x ∈ padRightTo l0 n [] → x ∈ l0 ∨ x = [] := by
    intro l0 n x hx
    rcases List.mem_append.mp hx with hx | hx
    · exact Or.inl hx
    · exact Or.inr (List.eq_of_mem_replicate hx)
  have hcell : ∀ r ∈ table_header lines :: table_rows lines,
      ∀ i, i < table_max_cols lines →
      estimate_display_width w (r.getD i []) = (r.getD i []).length := by
    intro r hr i hi
    have hmem : r.getD i [] ∈ r := by
      rw [List.getD_eq_getElem r [] (by rw [hrl r hr]; omega)]
      exact List.getElem_mem _
    rcases List.mem_cons.mp hr with rfl | hr
    · rcases hmem_pad (parse_table_cells (lines.headD []))
        (table_max_cols lines) _ hmem with hm | hm
      · exact hw _ hhead_mem _ hm
      · rw [hm]
        simp [estimate_display_width]
    · unfold table_rows at hr
      obtain ⟨r0, hr0, rfl⟩ := List.mem_map.mp hr
      rcases hmem_pad r0 (table_max_cols lines) _ hmem with hm | hm
      · unfold table_data_rows at hr0
        obtain ⟨l', hl', rfl⟩ := List.mem_map.mp hr0
        exact hw l' (List.mem_of_mem_drop (List.mem_of_mem_filter hl')) _ hm
      · rw [hm]
        simp [estimate_display_width]
  have hWi : ∀ i, i < table_max_cols lines →
      (table_col_widths w lines).getD i 0
        = max ((table_header lines :: table_rows lines).foldl
            (fun m r =>
              if i < r.length then
                max m (estimate_display_width w (r.getD i []))
              else m) 0) 3 := by
    intro i hi
    unfold table_col_widths
    rw [List.getD_eq_getElem _ 0 (by simp; omega)]
    rw [List.getElem_map, List.getElem_range]
  have hbound : ∀ r ∈ table_header lines :: table_rows lines,
      ∀ i, i < table_max_cols lines →
      estimate_display_width w (r.getD i [])
        ≤ (table_col_widths w lines).getD i 0 := by
    intro r hr i hi
    rw [hWi i hi]
    refine le_trans ?_ (Nat.le_max_left _ 3)
    exact foldl_guard_max_of_mem (fun r => i < r.length)
      (fun r => estimate_display_width w (r.getD i []))
      (table_header lines :: table_rows lines) 0 r hr
      (by show i < r.length; rw [hrl r hr]; omega)
  have hpad : ∀ r ∈ table_header lines :: table_rows lines,
      ∀ i, i < table_max_cols lines → ∀ al,
      (pad_text w (r.getD i []) ((table_col_widths w lines).getD i 0) al).length
        = (table_col_widths w lines).getD i 0 := by
    intro r hr i hi al
    rw [pad_text_length]
    have h1 := hcell r hr i hi
    have h2 := hbound r hr i hi
    omega
  have hA_ge : table_max_cols lines ≤ (table_aligns lines).length := by
    unfold table_aligns
    rw [padRightTo_length]
    omega
  have hHP : header_parts w lines
      = (List.range (table_max_cols lines)).map (fun i =>
          ' ' :: (pad_text w ((table_header lines).getD i [])
            ((table_col_widths w lines).getD i 0)
            ((table_aligns lines).getD i Align.left) ++ [' '])) :=
    zipWith3_eq_range_map _ [] 0 Align.left (table_max_cols lines) _ _ _
      hH_len hW_len hA_ge
  have hpartlen : ∀ (r : List Str), r ∈ table_header lines :: table_rows lines →
      ∀ i ∈ List.range (table_max_cols lines), ∀ al,
      (' ' :: (pad_text w (r.getD i [])
          ((table_col_widths w lines).getD i 0) al ++ [' '])).length
        = (table_col_widths w lines).getD i 0 + 2 := by
    intro r hr i hi al
    rw [List.length_cons, List.length_append,
      hpad r hr i (List.mem_range.mp hi) al]
    simp
  have hHPlen : (header_parts w lines).map List.length
      = (table_col_widths w lines).map (fun x => x + 2) := by
    rw [hHP, List.map_map]
    have hcongr : ∀ i ∈ List.range (table_max_cols lines),
        (List.length ∘ fun i =>
          ' ' :: (pad_text w ((table_header lines).getD i [])
            ((table_col_widths w lines).getD i 0)
            ((table_aligns lines).getD i Align.left) ++ [' '])) i
          = (fun j => (table_col_widths w lines).getD j 0 + 2) i := by
      intro i hi
      exact hpartlen (table_header lines) (List.mem_cons_self _ _) i hi _
    rw [List.map_congr_left hcongr]
    rw [show table_max_cols lines = (table_col_widths w lines).length from
      hW_len.symm]
    exact range_map_getD_comp (table_col_widths w lines) 0 (fun x => x + 2)
  have hDPlen : ∀ r ∈ table_rows lines,
      (data_parts w (table_col_widths w lines) (table_aligns lines) r).map
          List.length
        = (table_col_widths w lines).map (fun x => x + 2) := by
    intro r hr
    unfold data_parts
    rw [List.map_map]
    have hcongr : ∀ i ∈ List.range (table_col_widths w lines).length,
        (List.length ∘ fun i =>
          ' ' :: (pad_text w (r.getD i [])
            ((table_col_widths w lines).getD i 0)
            ((table_aligns lines).getD i Align.left) ++ [' '])) i
          = (fun j => (table_col_widths w lines).getD j 0 + 2) i := by
      intro i hi
      refine hpartlen r (List.mem_cons_of_mem _ hr) i ?_ _
      rw [← hW_len]
      exact hi
    rw [List.map_congr_left hcongr]
    exact range_map_getD_comp (table_col_widths w lines) 0 (fun x => x + 2)
  have hBPlen : (((table_col_widths w lines).map
        (fun wi => List.replicate (wi + 2) '─')).map List.length)
      = (table_col_widths w lines).map (fun x => x + 2) := by
    rw [List.map_map]
    refine List.map_congr_left ?_
    intro x _
    simp
  intro s hs
  unfold format_table_lines at hs
  rw [if_neg hlne, if_neg (by omega)] at hs
  simp only [List.mem_append, List.mem_cons, List.mem_singleton,
    List.not_mem_nil, or_false, List.mem_map] at hs
  rcases hs with ((rfl | rfl | rfl) | ⟨r, hr, rfl⟩) | rfl
  · exact row_line_length _ _ hWne hBPlen '┌' '┬' '┐'
  · exact row_line_length _ _ hWne hHPlen '│' '│' '│'
  · exact row_line_length _ _ hWne hBPlen '├' '┼' '┤'
  · exact row_line_length _ _ hWne (hDPlen r hr) '│' '│' '│'
  · exact row_line_length _ _ hWne hBPlen '└' '┴' '┘'

def emojiHeader : Str := "|😀|".toList

def emojiSep : Str := "|---|".toList

/-- C6 counterexample: for the valid table block `["|😀|", "|---|"]`
with the emoji's real two-column width (category So), the border lines
have 7 characters but the header row has only 6 — `pad_text` pads to the
estimated display width, not to the character count, so rows with wide
characters contain fewer characters than the borders and uniformity of
character count fails. -/
theorem format_table_char_count_cex :
    ¬ ∀ s ∈ format_table_lines emojiWidth [emojiHeader, emojiSep],
        s.length = ((table_col_widths emojiWidth [emojiHeader, emojiSep]).map
          (fun x => x + 3)).sum + 1 := by decide

def asciiA : Str := "|a|".toList

def asciiB : Str := "|b|".toList

/-- C6 (amended) witness: on the all-ASCII block `["|a|", "|b|"]` the
first output line (the top border) has the claimed uniform length. -/
theorem format_table_uniform_row_length_witness :
    ((format_table_lines unitWidth [asciiA, asciiB]).headD []).length
      = ((table_col_widths unitWidth [asciiA, asciiB]).map
          (fun x => x + 3)).sum + 1 :=
  format_table_uniform_row_length unitWidth [asciiA, asciiB] (by decide)
    (by decide) (by decide) _ (by decide)
